import Mathlib

/-!
Verification development for the SISSA rating-viewer scraper
(`scraper.py`).  The Python source is shallowly embedded: each pure
fragment of the program becomes an executable Lean definition, stateful
record mutation becomes explicit record update, and the fallible
download path returns its outcome explicitly.  The claims of the
specification are then settled as theorems about these definitions.
-/

namespace Sissa

/-! ## Character and string helpers (embedding of Python `str` methods) -/

/-- Embedding of Python's whitespace class used by `str.strip` and the
regex class written as a backslash-s: space, tab, newline, carriage
return, vertical tab, form feed. -/
def pyIsSpace (c : Char) : Bool :=
  c == ' ' || c == '\t' || c == '\n' || c == '\r' || c == '\x0b' || c == '\x0c'

/-- Embedding of Python's `str.strip()` on a character list: drop
whitespace from both ends. -/
def pyStripL (l : List Char) : List Char :=
  ((l.dropWhile pyIsSpace).reverse.dropWhile pyIsSpace).reverse

/-- Embedding of Python's `str.strip()`. -/
def pyStrip (s : String) : String :=
  String.mk (pyStripL s.data)

/-- Decimal value of a digit string, the embedding of Python `int()`
applied to a string that `str.isdigit()` accepts (the only way the
source calls it).  Such a value is a natural number. -/
def pyNat (s : String) : Nat :=
  s.data.foldl (fun a c => 10 * a + (c.toNat - 48)) 0

/-! ## Federation snapshot data model (`download_and_parse_fide_xml`) -/

/-- One parsed federation record, the value stored in
`fide_data[fide_id]` by `download_and_parse_fide_xml`.  Ratings are
modelled as integers (Python `int`); the parser only ever produces
non-negative ones, which claim C6 states. -/
structure FideRecord where
  rating : Int
  games : Int
  title : String
  country : String
  birthday : String
deriving DecidableEq, Repr

/-- One source record of the federation XML feed: the text content of
each child element of a `player` element.  `none` models an element
whose text is absent (`.text` is `None` in the source). -/
structure XmlPlayer where
  fideid : Option String
  rating : Option String
  games : Option String
  title : Option String
  country : Option String
  birthday : Option String
deriving DecidableEq, Repr

/-- Python truthiness test `if fide_id:` on an optional string: false
for `None` and for the empty string. -/
def validId : Option String → Bool
  | none => false
  | some s => s != ""

/-- Embedding of the record construction in
`download_and_parse_fide_xml`:
`int(rating) if rating and rating.isdigit() else 0` for the numeric
fields and `title if title else ""` for the textual ones. -/
def mkFideRecord (r : XmlPlayer) : FideRecord where
  rating :=
    match r.rating with
    | some s => if s ≠ "" ∧ s.data.all Char.isDigit then (pyNat s : Int) else 0
    | none => 0
  games :=
    match r.games with
    | some s => if s ≠ "" ∧ s.data.all Char.isDigit then (pyNat s : Int) else 0
    | none => 0
  title := r.title.getD ""
  country := r.country.getD ""
  birthday := r.birthday.getD ""

/-- Python `dict` assignment `m[k] = v` on an association list:
overwrite in place when the key exists, append otherwise. -/
def dictInsert (m : List (String × FideRecord)) (k : String) (v : FideRecord) :
    List (String × FideRecord) :=
  match m with
  | [] => [(k, v)]
  | (k', v') :: t => if k' = k then (k, v) :: t else (k', v') :: dictInsert t k v

/-- Python `dict` lookup: `m[k]` / `k in m` on the association list. -/
def dictLookup (m : List (String × FideRecord)) (k : String) : Option FideRecord :=
  match m with
  | [] => none
  | (k', v) :: t => if k' = k then some v else dictLookup t k

/-- Body of the `for player in root.findall('player')` loop of
`download_and_parse_fide_xml`: store the record when the identifier is
truthy, otherwise leave the dictionary unchanged. -/
def snapshotStep (m : List (String × FideRecord)) (r : XmlPlayer) :
    List (String × FideRecord) :=
  if validId r.fideid then dictInsert m (r.fideid.getD "") (mkFideRecord r) else m

/-- The snapshot built by the parsing loop of
`download_and_parse_fide_xml`, starting from the empty `fide_data`. -/
def parseSnapshot (recs : List XmlPlayer) : List (String × FideRecord) :=
  recs.foldl snapshotStep []

/-- Outcome of the HTTP download plus ZIP/XML decoding performed by the
external libraries in `download_and_parse_fide_xml`: an HTTP status and
either the list of `player` elements or a raised exception (any
exception of the ZIP or XML machinery), modelled as `Except`. -/
structure HttpResponse where
  status : Nat
  body : Except String (List XmlPlayer)
deriving Repr

/-- Embedding of `download_and_parse_fide_xml`: a non-200 status
returns the empty dictionary, any exception while unpacking or parsing
is caught and returns the empty dictionary, and otherwise the player
records are parsed into a snapshot.  The function is total: no
exception escapes. -/
def download_and_parse_fide_xml (resp : HttpResponse) : List (String × FideRecord) :=
  if resp.status ≠ 200 then []
  else
    match resp.body with
    | Except.error _ => []
    | Except.ok recs => parseSnapshot recs

/-! ## Player records (`scrape_ratings`) -/

/-- A roster player record as built by `scrape_ratings`.  The keys that
the Python dictionary starts without (`fide_id`, `fide_rating`,
`fide_games`, `fide_change`) are optional fields starting at `none`. -/
structure Player where
  name : String
  profile_url : String
  current_rating : String
  rating_change : String
  games_played : String
  title : String
  country : String
  birthday : String
  gender : String
  fide_id : Option String
  fide_rating : Option String
  fide_games : Option String
  fide_change : Option String
deriving DecidableEq, Repr

/-! ## Games-played extraction (`scrape_ratings`, summary-table cell) -/

/-- Embedding of Python's `text.split("\n")`: split at every newline,
keeping empty segments; the result is never empty. -/
def splitOnNl (l : List Char) : List (List Char) :=
  match l with
  | [] => [[]]
  | c :: t =>
    if c = '\n' then [] :: splitOnNl t
    else
      match splitOnNl t with
      | [] => [[c]]
      | h :: t' => (c :: h) :: t'

/-- Last element of a split result, the embedding of the Python index
`[-1]` (the split list is never empty, so the default is unreachable). -/
def lastD (l : List (List Char)) : List Char :=
  match l with
  | [] => []
  | [x] => x
  | _ :: t => lastD t

/-- Embedding of the games-played extraction of `scrape_ratings`:
`if "\n" in text: player["games_played"] = text.split("\n")[-1].strip()`. -/
def parseGames (p : Player) (text : String) : Player :=
  if '\n' ∈ text.data then
    { p with games_played := String.mk (pyStripL (lastD (splitOnNl text.data))) }
  else p

/-! ## Rating-change extraction (`scrape_ratings`, calculation cell) -/

/-- The sign captured by the first group of the source regex. -/
inductive Sign where
  | pos
  | neg
deriving DecidableEq, Repr

/-- The character a `Sign` stands for. -/
def SignChar : Sign → Char
  | Sign.pos => '+'
  | Sign.neg => '-'

/-- Classify the reversed remainder that follows the trailing digit run:
the regex sign group matches either directly before the digits or with
one whitespace character in between. -/
def classifyRest (rest : List Char) : Option Sign :=
  match rest with
  | [] => none
  | c :: rest' =>
    if c = '+' then some Sign.pos
    else if c = '-' then some Sign.neg
    else if pyIsSpace c then
      match rest' with
      | [] => none
      | c' :: _ =>
        if c' = '+' then some Sign.pos
        else if c' = '-' then some Sign.neg
        else none
    else none

/-- Embedding of `re.search` with the source pattern: a sign character,
optionally one whitespace character, then one or more digits anchored
at the end of the string.  Returns the sign and the digit run (in
source order) when the pattern matches. -/
def searchSignedSuffix (s : String) : Option (Sign × List Char) :=
  let r := s.data.reverse
  let ds := r.takeWhile Char.isDigit
  if ds = [] then none
  else
    match classifyRest (r.dropWhile Char.isDigit) with
    | some sg => some (sg, ds.reverse)
    | none => none

/-- Embedding of the rating-change extraction of `scrape_ratings`:
search the stripped calculation text for the trailing signed delta; on
a `+` match store the digits unsigned, on a `-` match store them with a
leading minus, otherwise leave the record unchanged (the source's
`elif "=" in text: pass` branch also changes nothing). -/
def parseRatingChange (p : Player) (text : String) : Player :=
  match searchSignedSuffix (pyStrip text) with
  | some (Sign.pos, v) => { p with rating_change := String.mk v }
  | some (Sign.neg, v) => { p with rating_change := "-" ++ String.mk v }
  | none => p

/-! ## Federation matching, delta and backfill (`scrape_ratings`) -/

/-- Claim-side rendering of the computed delta, the embedding of
`f"+{change}" if change > 0 else str(change)`. -/
def formatDelta (d : Int) : String :=
  if 0 < d then "+" ++ toString d else toString d

/-- Embedding of the block of `scrape_ratings` that runs once a
federation identifier has been extracted from the profile link: record
the identifier; when it is found in the current snapshot copy rating
and games as strings, compute the change against the previous snapshot
(`"0"` when the identifier has no previous record, the formatted delta
when the previous rating is positive, nothing otherwise), and backfill
title, country and birthday from the federation record when the
roster value is empty. -/
def matchFide (p : Player) (fideId : String)
    (currentFide prevFide : List (String × FideRecord)) : Player :=
  let p1 := { p with fide_id := some fideId }
  match dictLookup currentFide fideId with
  | none => p1
  | some curr =>
    let p2 := { p1 with
      fide_rating := some (toString curr.rating),
      fide_games := some (toString curr.games) }
    let p3 :=
      match dictLookup prevFide fideId with
      | some prevRec =>
        if 0 < prevRec.rating then
          { p2 with fide_change := some (formatDelta (curr.rating - prevRec.rating)) }
        else p2
      | none => { p2 with fide_change := some "0" }
    { p3 with
      title := if p3.title = "" ∧ curr.title ≠ "" then curr.title else p3.title,
      country := if p3.country = "" ∧ curr.country ≠ "" then curr.country else p3.country,
      birthday := if p3.birthday = "" ∧ curr.birthday ≠ "" then curr.birthday else p3.birthday }

/-! ## Previous-period URL (`get_previous_period_url`) -/

/-- A calendar date as handled by Python's `datetime.date`. -/
structure Date where
  year : Nat
  month : Nat
  day : Nat
deriving DecidableEq, Repr

/-- Gregorian leap-year rule, the embedding of the `datetime` library's
calendar. -/
def isLeap (y : Nat) : Bool :=
  (y % 4 == 0 && y % 100 != 0) || y % 400 == 0

/-- Days in a month of the Gregorian calendar. -/
def daysInMonth (y m : Nat) : Nat :=
  if m = 2 then (if isLeap y then 29 else 28)
  else if m = 4 ∨ m = 6 ∨ m = 9 ∨ m = 11 then 30
  else 31

/-- Embedding of `date - timedelta(days=1)`. -/
def subOneDay (d : Date) : Date :=
  if 1 < d.day then ⟨d.year, d.month, d.day - 1⟩
  else if d.month = 1 then ⟨d.year - 1, 12, 31⟩
  else ⟨d.year, d.month - 1, daysInMonth d.year (d.month - 1)⟩

/-- Embedding of `strftime("%b").lower()` in the C locale. -/
def monthAbbrev : Nat → String
  | 1 => "jan"
  | 2 => "feb"
  | 3 => "mar"
  | 4 => "apr"
  | 5 => "may"
  | 6 => "jun"
  | 7 => "jul"
  | 8 => "aug"
  | 9 => "sep"
  | 10 => "oct"
  | 11 => "nov"
  | 12 => "dec"
  | _ => ""

/-- Embedding of `strftime("%y")`: the year modulo 100, zero padded to
two digits. -/
def twoDigitYear (y : Nat) : String :=
  if y % 100 < 10 then "0" ++ toString (y % 100) else toString (y % 100)

/-- Embedding of `get_previous_period_url`: first day of the current
month, minus one day, formatted into the fixed URL template. -/
def get_previous_period_url (today : Date) : String :=
  let first : Date := ⟨today.year, today.month, 1⟩
  let prev := subOneDay first
  "https://ratings.fide.com/download/standard_" ++ monthAbbrev prev.month ++
    twoDigitYear prev.year ++ "frl_xml.zip"

/-! ## Concrete fixtures used by witnesses and counterexamples -/

/-- A concrete roster player as first appended to `players`: the
string defaults `"0"` for the change fields and no federation keys. -/
def examplePlayer : Player where
  name := "A"
  profile_url := "https://ratingviewer.nl/p"
  current_rating := "2100"
  rating_change := "0"
  games_played := "0"
  title := ""
  country := ""
  birthday := ""
  gender := ""
  fide_id := none
  fide_rating := none
  fide_games := none
  fide_change := none

/-- A current snapshot holding identifier "123" with rating 2000. -/
def exCurrent : List (String × FideRecord) := [("123", ⟨2000, 7, "IM", "NED", "1990"⟩)]

/-- A previous snapshot holding identifier "123" with rating 1980. -/
def exPrev : List (String × FideRecord) := [("123", ⟨1980, 3, "", "", ""⟩)]

/-- A previous snapshot holding identifier "123" with rating 0. -/
def exPrevZero : List (String × FideRecord) := [("123", ⟨0, 3, "", "", ""⟩)]

/-- The empty snapshot. -/
def exEmptySnap : List (String × FideRecord) := []

/-- A source record with a valid identifier, used by witnesses. -/
def exXmlValid : XmlPlayer := ⟨some "1", some "2000", some "5", some "GM", none, none⟩

/-- A source record whose identifier is the empty string. -/
def exXmlNoId : XmlPlayer := ⟨some "", some "1800", none, none, none, none⟩

/-! ## Dictionary and snapshot lemmas -/

theorem dictLookup_dictInsert (m : List (String × FideRecord)) (k k' : String) (v : FideRecord) :
    dictLookup (dictInsert m k' v) k = if k' = k then some v else dictLookup m k := by
  induction m with
  | nil => by_cases h : k' = k <;> simp [dictInsert, dictLookup, h]
  | cons hd t ih =>
    obtain ⟨k0, v0⟩ := hd
    by_cases h0 : k0 = k'
    · by_cases h : k' = k <;> simp [dictInsert, dictLookup, h0, h]
    · by_cases h : k' = k
      · have hk0 : ¬ k0 = k := fun he => h0 (he.trans h.symm)
        simp only [dictInsert, if_neg h0, dictLookup, if_neg hk0, if_pos h]
        simpa [h] using ih
      · by_cases hk0 : k0 = k
        · have hkk : ¬ k = k' := fun he => h he.symm
          simp [dictInsert, dictLookup, h0, hk0, hkk, h]
        · simp [dictInsert, dictLookup, h0, hk0, h, ih]

theorem snapshotStep_preserves (m : List (String × FideRecord)) (r : XmlPlayer) (k : String)
    (h : (dictLookup m k).isSome = true) :
    (dictLookup (snapshotStep m r) k).isSome = true := by
  unfold snapshotStep
  split
  · rw [dictLookup_dictInsert]
    split <;> simp [h]
  · exact h

theorem foldl_snapshotStep_preserves (recs : List XmlPlayer) (m : List (String × FideRecord))
    (k : String) (h : (dictLookup m k).isSome = true) :
    (dictLookup (recs.foldl snapshotStep m) k).isSome = true := by
  induction recs generalizing m with
  | nil => exact h
  | cons r t ih => exact ih _ (snapshotStep_preserves m r k h)

theorem mem_foldl_snapshotStep (recs : List XmlPlayer) (m : List (String × FideRecord))
    (r : XmlPlayer) (hr : r ∈ recs) (hv : validId r.fideid = true) :
    (dictLookup (recs.foldl snapshotStep m) (r.fideid.getD "")).isSome = true := by
  obtain ⟨l1, l2, rfl⟩ := List.append_of_mem hr
  rw [List.foldl_append, List.foldl_cons]
  apply foldl_snapshotStep_preserves
  unfold snapshotStep
  rw [if_pos hv, dictLookup_dictInsert]
  simp

theorem foldl_snapshotStep_filter (recs : List XmlPlayer) (m : List (String × FideRecord)) :
    recs.foldl snapshotStep m = (recs.filter (fun r => validId r.fideid)).foldl snapshotStep m := by
  induction recs generalizing m with
  | nil => rfl
  | cons r t ih =>
    by_cases h : validId r.fideid
    · simp only [List.filter_cons, h, if_pos, List.foldl_cons]
      exact ih _
    · have hs : snapshotStep m r = m := by simp [snapshotStep, h]
      simp only [List.filter_cons, h, List.foldl_cons, hs]
      simpa using ih m

theorem mem_dictInsert (m : List (String × FideRecord)) (k : String) (v : FideRecord)
    (q : String × FideRecord) (h : q ∈ dictInsert m k v) : q = (k, v) ∨ q ∈ m := by
  induction m with
  | nil => simpa [dictInsert] using h
  | cons hd t ih =>
    obtain ⟨k0, v0⟩ := hd
    by_cases h0 : k0 = k
    · simp only [dictInsert, if_pos h0, List.mem_cons] at h
      rcases h with rfl | h
      · exact Or.inl rfl
      · exact Or.inr (List.mem_cons_of_mem _ h)
    · simp only [dictInsert, if_neg h0, List.mem_cons] at h
      rcases h with rfl | h
      · exact Or.inr (List.mem_cons_self _ _)
      · rcases ih h with h' | h'
        · exact Or.inl h'
        · exact Or.inr (List.mem_cons_of_mem _ h')

theorem mem_foldl_snapshot_src (recs : List XmlPlayer) (m : List (String × FideRecord))
    (q : String × FideRecord) (h : q ∈ recs.foldl snapshotStep m) :
    (∃ r ∈ recs, q.2 = mkFideRecord r) ∨ q ∈ m := by
  induction recs generalizing m with
  | nil => exact Or.inr h
  | cons a t ih =>
    rcases ih _ h with ⟨r, hr, he⟩ | hm
    · exact Or.inl ⟨r, List.mem_cons_of_mem _ hr, he⟩
    · unfold snapshotStep at hm
      split at hm
      · rcases mem_dictInsert _ _ _ _ hm with rfl | hm'
        · exact Or.inl ⟨a, List.mem_cons_self _ _, rfl⟩
        · exact Or.inr hm'
      · exact Or.inr hm

theorem mkFideRecord_nonneg (r : XmlPlayer) :
    0 ≤ (mkFideRecord r).rating ∧ 0 ≤ (mkFideRecord r).games := by
  unfold mkFideRecord
  constructor
  · cases r.rating with
    | none => simp
    | some s =>
      dsimp only
      split
      · exact Int.natCast_nonneg _
      · exact le_refl 0
  · cases r.games with
    | none => simp
    | some s =>
      dsimp only
      split
      · exact Int.natCast_nonneg _
      · exact le_refl 0

/-! ## Theorems: snapshot parsing (claims C5, C6) -/

/-- Claim C5: a source record whose identifier is absent or empty is
skipped — the snapshot equals the one parsed from the remaining records
alone, so the skip affects nothing else — while every record with a
valid identifier still contributes its identifier to the snapshot. -/
theorem snapshot_skips_invalid_ids :
    (∀ recs : List XmlPlayer,
       parseSnapshot recs = parseSnapshot (recs.filter (fun r => validId r.fideid)))
    ∧ (∀ (recs : List XmlPlayer) (r : XmlPlayer), r ∈ recs → validId r.fideid = true →
       (dictLookup (parseSnapshot recs) (r.fideid.getD "")).isSome = true) := by
  constructor
  · intro recs
    exact foldl_snapshotStep_filter recs []
  · intro recs r hr hv
    exact mem_foldl_snapshotStep recs [] r hr hv

/-- Witness for claim C5: a record with an empty identifier is skipped
while the valid record beside it is parsed into the snapshot. -/
theorem snapshot_skips_invalid_ids_witness :
    (dictLookup (parseSnapshot [exXmlNoId, exXmlValid]) "1").isSome = true :=
  snapshot_skips_invalid_ids.2 [exXmlNoId, exXmlValid] exXmlValid (by decide) (by decide)

/-- Claim C6: every record of a parsed snapshot has non-negative rating
and games; a numeric source value parses to its decimal value, any
non-numeric or absent value coerces to 0, and title, country and
birthday coerce to the empty string when absent. -/
theorem snapshot_fields_nonneg_coerce :
    (∀ (recs : List XmlPlayer) (q : String × FideRecord), q ∈ parseSnapshot recs →
       0 ≤ q.2.rating ∧ 0 ≤ q.2.games)
    ∧ (∀ (r : XmlPlayer) (s : String), r.rating = some s →
       s ≠ "" → s.data.all Char.isDigit = true → (mkFideRecord r).rating = (pyNat s : Int))
    ∧ (∀ (r : XmlPlayer) (s : String), r.rating = some s →
       ¬(s ≠ "" ∧ s.data.all Char.isDigit = true) → (mkFideRecord r).rating = 0)
    ∧ (∀ r : XmlPlayer, r.rating = none → (mkFideRecord r).rating = 0)
    ∧ (∀ (r : XmlPlayer) (s : String), r.games = some s →
       s ≠ "" → s.data.all Char.isDigit = true → (mkFideRecord r).games = (pyNat s : Int))
    ∧ (∀ (r : XmlPlayer) (s : String), r.games = some s →
       ¬(s ≠ "" ∧ s.data.all Char.isDigit = true) → (mkFideRecord r).games = 0)
    ∧ (∀ r : XmlPlayer, r.games = none → (mkFideRecord r).games = 0)
    ∧ (∀ r : XmlPlayer, r.title = none → (mkFideRecord r).title = "")
    ∧ (∀ r : XmlPlayer, r.country = none → (mkFideRecord r).country = "")
    ∧ (∀ r : XmlPlayer, r.birthday = none → (mkFideRecord r).birthday = "") := by
  refine ⟨?_, ?_, ?_, ?_, ?_, ?_, ?_, ?_, ?_, ?_⟩
  · intro recs q hq
    rcases mem_foldl_snapshot_src recs [] q hq with ⟨r, _, he⟩ | hm
    · rw [he]
      exact mkFideRecord_nonneg r
    · cases hm
  · intro r s hr hs hd
    simp [mkFideRecord, hr, hs, hd]
  · intro r s hr hn
    simp only [mkFideRecord, hr]
    rw [if_neg hn]
  · intro r hr
    simp [mkFideRecord, hr]
  · intro r s hr hs hd
    simp [mkFideRecord, hr, hs, hd]
  · intro r s hr hn
    simp only [mkFideRecord, hr]
    rw [if_neg hn]
  · intro r hr
    simp [mkFideRecord, hr]
  · intro r hr
    simp [mkFideRecord, hr]
  · intro r hr
    simp [mkFideRecord, hr]
  · intro r hr
    simp [mkFideRecord, hr]

/-- Witness for claim C6: the snapshot record parsed from the sample
source record has non-negative rating and games. -/
theorem snapshot_fields_nonneg_coerce_witness :
    0 ≤ (mkFideRecord exXmlValid).rating ∧ 0 ≤ (mkFideRecord exXmlValid).games :=
  snapshot_fields_nonneg_coerce.1 [exXmlValid] ("1", mkFideRecord exXmlValid) (by decide)

/-! ## Theorems: reconciliation (claims C1, C2, C7) -/

/-- Claim C1, amended: for a player whose identifier is found in the
current snapshot, if the identifier is also found in the previous
snapshot with a previous rating strictly greater than zero then
fide_change is the rendering of the delta ("+N" when positive, the
signed decimal string otherwise, zero rendering as "0" and not "+0");
if the identifier is not found in the previous snapshot, fide_change is
"0"; and — the amendment — if it is found there with previous rating 0,
fide_change is left unset rather than set to "0". -/
theorem fideChange_delta_policy (p : Player) (id : String)
    (cur prevS : List (String × FideRecord)) (curr : FideRecord)
    (hc : dictLookup cur id = some curr) (hp : p.fide_change = none) :
    (∀ q, dictLookup prevS id = some q → 0 < q.rating →
       (matchFide p id cur prevS).fide_change = some (formatDelta (curr.rating - q.rating)))
    ∧ (dictLookup prevS id = none → (matchFide p id cur prevS).fide_change = some "0")
    ∧ (∀ q, dictLookup prevS id = some q → q.rating ≤ 0 →
       (matchFide p id cur prevS).fide_change = none)
    ∧ formatDelta 0 = "0" := by
  refine ⟨?_, ?_, ?_, by decide⟩
  · intro q hq hqr
    unfold matchFide
    rw [hc, hq]
    simp [hqr]
  · intro hq
    unfold matchFide
    rw [hc, hq]
  · intro q hq hqr
    unfold matchFide
    rw [hc, hq]
    simp [not_lt.mpr hqr, hp]

/-- Witness for claim C1: current rating 2000 against previous rating
1980 yields fide_change "+20". -/
theorem fideChange_delta_policy_witness :
    (matchFide examplePlayer "123" exCurrent exPrev).fide_change = some "+20" := by
  have h := (fideChange_delta_policy examplePlayer "123" exCurrent exPrev
    ⟨2000, 7, "IM", "NED", "1990"⟩ (by decide) rfl).1 ⟨1980, 3, "", "", ""⟩ (by decide) (by decide)
  exact h.trans (by decide)

/-- Counterexample to claim C1 as stated: identifier "123" is found in
the current snapshot and in the previous snapshot with previous rating
0, yet fide_change is not "0" — it is left unset. -/
theorem fideChange_zero_prev_counterexample :
    (dictLookup exCurrent "123").isSome = true
    ∧ dictLookup exPrevZero "123" = some ⟨0, 3, "", "", ""⟩
    ∧ (matchFide examplePlayer "123" exCurrent exPrevZero).fide_change = none := by decide

/-- Claim C2, amended: once the identifier is set and found in the
current snapshot, fide_rating and fide_games are populated with the
string renderings of the current federation record's rating and games;
fide_change is populated exactly when the identifier is absent from the
previous snapshot or present there with a positive rating (not "only
if present with a positive rating", as stated). -/
theorem fide_fields_population (p : Player) (id : String)
    (cur prevS : List (String × FideRecord)) (curr : FideRecord)
    (hc : dictLookup cur id = some curr) (hp : p.fide_change = none) :
    (matchFide p id cur prevS).fide_id = some id
    ∧ (matchFide p id cur prevS).fide_rating = some (toString curr.rating)
    ∧ (matchFide p id cur prevS).fide_games = some (toString curr.games)
    ∧ (((matchFide p id cur prevS).fide_change).isSome = true ↔
        (dictLookup prevS id = none ∨ ∃ q, dictLookup prevS id = some q ∧ 0 < q.rating)) := by
  unfold matchFide
  rw [hc]
  cases hq : dictLookup prevS id with
  | none => simp
  | some q =>
    by_cases h : 0 < q.rating
    · simp [h]
    · simp [h, hp]

/-- Witness for claim C2: identifier "123" in the current snapshot
yields fide_rating "2000". -/
theorem fide_fields_population_witness :
    (matchFide examplePlayer "123" exCurrent exPrev).fide_rating = some "2000" := by
  have h := (fide_fields_population examplePlayer "123" exCurrent exPrev
    ⟨2000, 7, "IM", "NED", "1990"⟩ (by decide) rfl).2.1
  exact h.trans (by decide)

/-- Counterexample to claim C2 as stated: the identifier is absent from
the previous snapshot, yet fide_change is populated (with "0"). -/
theorem fideChange_populated_counterexample :
    (matchFide examplePlayer "123" exCurrent exEmptySnap).fide_change = some "0"
    ∧ dictLookup exEmptySnap "123" = none := by decide

/-- Claim C7: for each of title, country and birthday the federation
value is copied into the record only when the roster value is empty and
the federation value non-empty; a non-empty roster value is never
overwritten. -/
theorem backfill_precedence (p : Player) (id : String)
    (cur prevS : List (String × FideRecord)) (curr : FideRecord)
    (hc : dictLookup cur id = some curr) :
    ((matchFide p id cur prevS).title
        = if p.title = "" ∧ curr.title ≠ "" then curr.title else p.title)
    ∧ ((matchFide p id cur prevS).country
        = if p.country = "" ∧ curr.country ≠ "" then curr.country else p.country)
    ∧ ((matchFide p id cur prevS).birthday
        = if p.birthday = "" ∧ curr.birthday ≠ "" then curr.birthday else p.birthday) := by
  unfold matchFide
  rw [hc]
  cases hq : dictLookup prevS id with
  | none => simp
  | some q => by_cases h : 0 < q.rating <;> simp [h]

/-- Witness for claim C7: roster title "FM" with federation title "IM"
stays "FM". -/
theorem backfill_precedence_witness :
    (matchFide { examplePlayer with title := "FM" } "123" exCurrent exPrev).title = "FM" := by
  have h := (backfill_precedence { examplePlayer with title := "FM" } "123" exCurrent exPrev
    ⟨2000, 7, "IM", "NED", "1990"⟩ (by decide)).1
  exact h.trans (by decide)

/-! ## Lemmas and theorem: rating-change extraction (claim C3) -/

/-- Claim-side reading of the source pattern: the string ends in a sign
character, optionally one whitespace character, then one or more
digits. -/
def EndsWithSignedDelta (s : String) (sg : Sign) (ds : List Char) : Prop :=
  ds ≠ [] ∧ (∀ c ∈ ds, Char.isDigit c = true) ∧
    ∃ pre sep : List Char,
      (sep = [] ∨ ∃ w, pyIsSpace w = true ∧ sep = [w]) ∧
      s.data = pre ++ SignChar sg :: (sep ++ ds)

theorem takeWhile_append_all (P : Char → Bool) (l1 l2 : List Char)
    (h : ∀ x ∈ l1, P x = true) :
    (l1 ++ l2).takeWhile P = l1 ++ l2.takeWhile P := by
  induction l1 with
  | nil => simp
  | cons c t ih =>
    rw [List.cons_append, List.takeWhile_cons_of_pos (by simpa using h c (List.mem_cons_self c t)),
      ih (fun x hx => h x (List.mem_cons_of_mem c hx)), List.cons_append]

theorem dropWhile_append_all (P : Char → Bool) (l1 l2 : List Char)
    (h : ∀ x ∈ l1, P x = true) :
    (l1 ++ l2).dropWhile P = l2.dropWhile P := by
  induction l1 with
  | nil => simp
  | cons c t ih =>
    rw [List.cons_append, List.dropWhile_cons_of_pos (by simpa using h c (List.mem_cons_self c t)),
      ih (fun x hx => h x (List.mem_cons_of_mem c hx))]

theorem signChar_not_digit (sg : Sign) : Char.isDigit (SignChar sg) = false := by
  cases sg <;> rfl

theorem pyIsSpace_cases (c : Char) (h : pyIsSpace c = true) :
    c = ' ' ∨ c = '\t' ∨ c = '\n' ∨ c = '\r' ∨ c = '\x0b' ∨ c = '\x0c' := by
  simpa [pyIsSpace, or_assoc] using h

theorem pyIsSpace_not_digit (c : Char) (h : pyIsSpace c = true) : Char.isDigit c = false := by
  rcases pyIsSpace_cases c h with rfl | rfl | rfl | rfl | rfl | rfl <;> rfl

theorem pyIsSpace_ne_plus (c : Char) (h : pyIsSpace c = true) : ¬ c = '+' := by
  intro he
  subst he
  exact absurd h (by decide)

theorem pyIsSpace_ne_minus (c : Char) (h : pyIsSpace c = true) : ¬ c = '-' := by
  intro he
  subst he
  exact absurd h (by decide)

theorem classifyRest_sign (sg : Sign) (t : List Char) :
    classifyRest (SignChar sg :: t) = some sg := by
  cases sg <;> rfl

theorem classifyRest_space_sign (w : Char) (hw : pyIsSpace w = true) (sg : Sign)
    (t : List Char) : classifyRest (w :: SignChar sg :: t) = some sg := by
  simp only [classifyRest]
  rw [if_neg (pyIsSpace_ne_plus w hw), if_neg (pyIsSpace_ne_minus w hw), if_pos hw]
  cases sg <;> rfl

theorem classifyRest_sound (rest : List Char) (sg : Sign) (h : classifyRest rest = some sg) :
    (∃ t, rest = SignChar sg :: t) ∨
      (∃ w t, pyIsSpace w = true ∧ rest = w :: SignChar sg :: t) := by
  cases rest with
  | nil => exact Option.noConfusion h
  | cons c rest' =>
    simp only [classifyRest] at h
    by_cases h1 : c = '+'
    · rw [if_pos h1] at h
      injection h with h'
      subst h'
      subst h1
      exact Or.inl ⟨rest', rfl⟩
    · rw [if_neg h1] at h
      by_cases h2 : c = '-'
      · rw [if_pos h2] at h
        injection h with h'
        subst h'
        subst h2
        exact Or.inl ⟨rest', rfl⟩
      · rw [if_neg h2] at h
        by_cases h3 : pyIsSpace c
        · rw [if_pos h3] at h
          cases rest' with
          | nil => exact Option.noConfusion h
          | cons c' t =>
            change (if c' = '+' then some Sign.pos
              else if c' = '-' then some Sign.neg else none) = some sg at h
            by_cases h4 : c' = '+'
            · rw [if_pos h4] at h
              injection h with h'
              subst h'
              subst h4
              exact Or.inr ⟨c, t, h3, rfl⟩
            · rw [if_neg h4] at h
              by_cases h5 : c' = '-'
              · rw [if_pos h5] at h
                injection h with h'
                subst h'
                subst h5
                exact Or.inr ⟨c, t, h3, rfl⟩
              · rw [if_neg h5] at h
                exact Option.noConfusion h
        · rw [if_neg h3] at h
          exact Option.noConfusion h

theorem searchSignedSuffix_complete (s : String) (sg : Sign) (ds : List Char)
    (h : EndsWithSignedDelta s sg ds) : searchSignedSuffix s = some (sg, ds) := by
  obtain ⟨hne, hdig, pre, sep, hsep, heq⟩ := h
  have hdig' : ∀ x ∈ ds.reverse, Char.isDigit x = true := fun x hx =>
    hdig x (List.mem_reverse.mp hx)
  have hnd : ¬ (Char.isDigit (SignChar sg) = true) := by simp [signChar_not_digit sg]
  simp only [searchSignedSuffix]
  rcases hsep with rfl | ⟨w, hw, rfl⟩
  · have hrev : s.data.reverse = ds.reverse ++ SignChar sg :: pre.reverse := by
      rw [heq]
      simp
    rw [hrev, takeWhile_append_all _ _ _ hdig', dropWhile_append_all _ _ _ hdig',
      List.takeWhile_cons_of_neg hnd, List.dropWhile_cons_of_neg hnd, List.append_nil,
      if_neg (by simpa using hne), classifyRest_sign, List.reverse_reverse]
  · have hnd' : ¬ (Char.isDigit w = true) := by simp [pyIsSpace_not_digit w hw]
    have hrev : s.data.reverse = ds.reverse ++ w :: SignChar sg :: pre.reverse := by
      rw [heq]
      simp
    rw [hrev, takeWhile_append_all _ _ _ hdig', dropWhile_append_all _ _ _ hdig',
      List.takeWhile_cons_of_neg hnd', List.dropWhile_cons_of_neg hnd', List.append_nil,
      if_neg (by simpa using hne), classifyRest_space_sign w hw, List.reverse_reverse]

theorem searchSignedSuffix_sound (s : String) (sg : Sign) (v : List Char)
    (h : searchSignedSuffix s = some (sg, v)) : EndsWithSignedDelta s sg v := by
  simp only [searchSignedSuffix] at h
  by_cases hne : s.data.reverse.takeWhile Char.isDigit = []
  · rw [if_pos hne] at h
    cases h
  · rw [if_neg hne] at h
    cases hcl : classifyRest (s.data.reverse.dropWhile Char.isDigit) with
    | none =>
      rw [hcl] at h
      cases h
    | some sg' =>
      rw [hcl] at h
      have hsg : sg' = sg ∧ (s.data.reverse.takeWhile Char.isDigit).reverse = v := by
        cases h
        exact ⟨rfl, rfl⟩
      obtain ⟨rfl, rfl⟩ := hsg
      have hsd : s.data =
          (s.data.reverse.dropWhile Char.isDigit).reverse ++
            (s.data.reverse.takeWhile Char.isDigit).reverse := by
        rw [← List.reverse_append, List.takeWhile_append_dropWhile, List.reverse_reverse]
      refine ⟨by simpa using hne, ?_, ?_⟩
      · intro c hc
        exact List.mem_takeWhile_imp (List.mem_reverse.mp hc)
      · rcases classifyRest_sound _ _ hcl with ⟨t, ht⟩ | ⟨w, t, hw, ht⟩
        · refine ⟨t.reverse, [], Or.inl rfl, hsd.trans ?_⟩
          rw [ht]
          simp
        · refine ⟨t.reverse, [w], Or.inr ⟨w, hw, rfl⟩, hsd.trans ?_⟩
          rw [ht]
          simp

/-- Claim C3: when the stripped calculation text ends in a signed
numeric delta (sign, optionally one whitespace character, then digits,
anchored at the end), a "+" match stores the digits unsigned and a "-"
match stores them with a leading minus; with no such suffix the change
keeps its prior value (the default "0") and no error is raised — in
particular a text containing "=" but no trailing signed number is
tolerated and ignored. -/
theorem ratingChange_parse_spec (p : Player) (text : String) :
    (∀ ds : List Char, EndsWithSignedDelta (pyStrip text) Sign.pos ds →
       (parseRatingChange p text).rating_change = String.mk ds)
    ∧ (∀ ds : List Char, EndsWithSignedDelta (pyStrip text) Sign.neg ds →
       (parseRatingChange p text).rating_change = "-" ++ String.mk ds)
    ∧ ((∀ sg ds, ¬ EndsWithSignedDelta (pyStrip text) sg ds) →
       (parseRatingChange p text).rating_change = p.rating_change)
    ∧ ('=' ∈ text.data → (∀ sg ds, ¬ EndsWithSignedDelta (pyStrip text) sg ds) →
       (parseRatingChange p text).rating_change = p.rating_change) := by
  have hnone : (∀ sg ds, ¬ EndsWithSignedDelta (pyStrip text) sg ds) →
      (parseRatingChange p text).rating_change = p.rating_change := by
    intro hno
    unfold parseRatingChange
    cases hs : searchSignedSuffix (pyStrip text) with
    | none => rfl
    | some pr =>
      obtain ⟨sg, v⟩ := pr
      exact absurd (searchSignedSuffix_sound _ _ _ hs) (hno sg v)
  refine ⟨?_, ?_, hnone, fun _ => hnone⟩
  · intro ds h
    unfold parseRatingChange
    rw [searchSignedSuffix_complete _ _ _ h]
  · intro ds h
    unfold parseRatingChange
    rw [searchSignedSuffix_complete _ _ _ h]

/-- Witness for claim C3: the sample calculation texts parse to "10"
and "-5". -/
theorem ratingChange_parse_spec_witness :
    (parseRatingChange examplePlayer "Berekening\n\n2702=2692 + 10").rating_change = "10"
    ∧ (parseRatingChange examplePlayer "Berekening\n\n2702=2692 - 5").rating_change = "-5" := by
  constructor
  · have h := (ratingChange_parse_spec examplePlayer "Berekening\n\n2702=2692 + 10").1
      ['1', '0'] ⟨by decide, by decide,
        "Berekening\n\n2702=2692 ".data, [' '], Or.inr ⟨' ', by decide, rfl⟩, by decide⟩
    exact h.trans (by decide)
  · have h := (ratingChange_parse_spec examplePlayer "Berekening\n\n2702=2692 - 5").2.1
      ['5'] ⟨by decide, by decide,
        "Berekening\n\n2702=2692 ".data, [' '], Or.inr ⟨' ', by decide, rfl⟩, by decide⟩
    exact h.trans (by decide)

/-! ## Split lemmas and theorems: games played (claims C4, C10) -/

theorem splitOnNl_ne_nil (l : List Char) : splitOnNl l ≠ [] := by
  cases l with
  | nil => simp [splitOnNl]
  | cons c t =>
    unfold splitOnNl
    split
    · simp
    · split <;> simp

theorem lastD_cons (x : List Char) (l : List (List Char)) (h : l ≠ []) :
    lastD (x :: l) = lastD l := by
  cases l with
  | nil => exact absurd rfl h
  | cons a t => rfl

theorem splitOnNl_of_not_mem (l : List Char) (h : '\n' ∉ l) : splitOnNl l = [l] := by
  induction l with
  | nil => rfl
  | cons c t ih =>
    have hc : ¬ c = '\n' := fun he => h (he ▸ List.mem_cons_self c t)
    have ht : '\n' ∉ t := fun hm => h (List.mem_cons_of_mem _ hm)
    unfold splitOnNl
    rw [if_neg hc, ih ht]

theorem splitOnNl_of_mem (l : List Char) (h : '\n' ∈ l) :
    ∃ a t', splitOnNl l = a :: t' ∧ t' ≠ [] := by
  induction l with
  | nil => cases h
  | cons c t ih =>
    by_cases hc : c = '\n'
    · exact ⟨[], splitOnNl t, by simp [splitOnNl, hc], splitOnNl_ne_nil t⟩
    · have ht : '\n' ∈ t := by
        rcases List.mem_cons.mp h with he | hm
        · exact absurd he.symm hc
        · exact hm
      obtain ⟨a, t', hs, hne⟩ := ih ht
      exact ⟨c :: a, t', by simp [splitOnNl, hc, hs], hne⟩

theorem lastD_splitOnNl_append (a b : List Char) :
    lastD (splitOnNl (a ++ '\n' :: b)) = lastD (splitOnNl b) := by
  induction a with
  | nil =>
    rw [List.nil_append]
    have h1 : splitOnNl ('\n' :: b) = [] :: splitOnNl b := by simp [splitOnNl]
    rw [h1, lastD_cons _ _ (splitOnNl_ne_nil b)]
  | cons c a' ih =>
    by_cases hc : c = '\n'
    · subst hc
      rw [List.cons_append]
      have h1 : splitOnNl ('\n' :: (a' ++ '\n' :: b)) = [] :: splitOnNl (a' ++ '\n' :: b) := by
        simp [splitOnNl]
      rw [h1, lastD_cons _ _ (splitOnNl_ne_nil _), ih]
    · rw [List.cons_append]
      have hm : '\n' ∈ a' ++ '\n' :: b :=
        List.mem_append_right _ (List.mem_cons_self _ _)
      obtain ⟨x, t', hs, hne⟩ := splitOnNl_of_mem _ hm
      have h1 : splitOnNl (c :: (a' ++ '\n' :: b)) = (c :: x) :: t' := by
        simp [splitOnNl, hc, hs]
      rw [h1, lastD_cons _ _ hne, ← lastD_cons x t' hne, ← hs]
      exact ih

theorem parseGames_after_last_nl (p : Player) (text : String) (pre post : List Char)
    (hdec : text.data = pre ++ '\n' :: post) (hnp : '\n' ∉ post) :
    (parseGames p text).games_played = String.mk (pyStripL post) := by
  have hmem : '\n' ∈ text.data := by
    rw [hdec]
    exact List.mem_append_right _ (List.mem_cons_self _ _)
  simp only [parseGames, if_pos hmem]
  rw [hdec, lastD_splitOnNl_append, splitOnNl_of_not_mem _ hnp]
  rfl

theorem pyStripL_of_all_space (l : List Char) (h : ∀ c ∈ l, pyIsSpace c = true) :
    pyStripL l = [] := by
  have h1 : l.dropWhile pyIsSpace = [] := List.dropWhile_eq_nil_iff.mpr (by simpa using h)
  simp [pyStripL, h1]

/-- Claim C4: when the games text block contains a line break,
games_played becomes the text after the last line break with
surrounding whitespace trimmed; without a line break it keeps its
prior value (the default "0"). -/
theorem gamesPlayed_parse_spec (p : Player) (text : String) :
    (∀ pre post : List Char, text.data = pre ++ '\n' :: post → '\n' ∉ post →
       (parseGames p text).games_played = String.mk (pyStripL post))
    ∧ ('\n' ∉ text.data → (parseGames p text).games_played = p.games_played) := by
  constructor
  · intro pre post hdec hnp
    exact parseGames_after_last_nl p text pre post hdec hnp
  · intro hnm
    simp [parseGames, hnm]

/-- Witness for claim C4: the sample block yields games_played "5". -/
theorem gamesPlayed_parse_spec_witness :
    (parseGames examplePlayer "#Gespeeld\n5").games_played = "5" := by
  have h := (gamesPlayed_parse_spec examplePlayer "#Gespeeld\n5").1
    "#Gespeeld".data ['5'] (by decide) (by decide)
  exact h.trans (by decide)

/-- Claim C10: the games-played extraction performs no numeric
validation — a block whose text after the last line break is only
whitespace (or nothing) sets games_played to the empty string,
overriding the "0" default, and non-numeric trailing text is stored
as-is (trimmed). -/
theorem gamesPlayed_no_validation (p : Player) (text : String) :
    (∀ pre post : List Char, text.data = pre ++ '\n' :: post → '\n' ∉ post →
       (∀ c ∈ post, pyIsSpace c = true) → (parseGames p text).games_played = "")
    ∧ (∀ pre post : List Char, text.data = pre ++ '\n' :: post → '\n' ∉ post →
       post.all Char.isDigit = false →
       (parseGames p text).games_played = String.mk (pyStripL post)) := by
  constructor
  · intro pre post hdec hnp hsp
    rw [parseGames_after_last_nl p text pre post hdec hnp, pyStripL_of_all_space post hsp]
  · intro pre post hdec hnp _
    exact parseGames_after_last_nl p text pre post hdec hnp

/-- Witness for claim C10: a whitespace-only tail yields the empty
string and a non-numeric tail is stored as-is. -/
theorem gamesPlayed_no_validation_witness :
    (parseGames examplePlayer "#Gespeeld\n  ").games_played = ""
    ∧ (parseGames examplePlayer "#G\nab c ").games_played = "ab c" := by
  constructor
  · exact (gamesPlayed_no_validation examplePlayer "#Gespeeld\n  ").1
      "#Gespeeld".data [' ', ' '] (by decide) (by decide) (by decide)
  · have h := (gamesPlayed_no_validation examplePlayer "#G\nab c ").2
      "#G".data "ab c ".data (by decide) (by decide) (by decide)
    exact h.trans (by decide)

/-! ## Theorems: snapshot download failure (claim C8) -/

/-- Claim C8: when the federation feed cannot be obtained or parsed —
a non-200 HTTP status, or any exception while unpacking or parsing the
archive — the parser returns the empty snapshot.  (The embedding is a
total function, so no exception escapes by construction.) -/
theorem download_failure_empty (resp : HttpResponse)
    (h : resp.status ≠ 200 ∨ ∃ e, resp.body = Except.error e) :
    download_and_parse_fide_xml resp = [] := by
  unfold download_and_parse_fide_xml
  rcases h with h | ⟨e, he⟩
  · simp [h]
  · by_cases hs : resp.status ≠ 200
    · simp [hs]
    · simp [hs, he]

/-- Witness for claim C8: a 404 response yields the empty snapshot. -/
theorem download_failure_empty_witness :
    download_and_parse_fide_xml ⟨404, Except.ok []⟩ = [] :=
  download_failure_empty ⟨404, Except.ok []⟩ (Or.inl (by decide))

/-! ## Theorems: previous-period URL (claim C9) -/

/-- Claim C9: the previous-period URL embeds the month preceding the
current date's month, as a lowercase three-letter abbreviation plus a
two-digit year, in the fixed template; at January the year rolls over,
a current date in January of year Y using December of year Y - 1. -/
theorem previous_period_url_spec (y m d : Nat) (_h1 : 1 ≤ m) (_h2 : m ≤ 12) :
    get_previous_period_url ⟨y, m, d⟩ =
      "https://ratings.fide.com/download/standard_"
        ++ monthAbbrev (if m = 1 then 12 else m - 1)
        ++ twoDigitYear (if m = 1 then y - 1 else y) ++ "frl_xml.zip" := by
  unfold get_previous_period_url subOneDay
  by_cases hm : m = 1 <;> simp [hm]

/-- Witness for claim C9: January 2026 yields the December 2025 list. -/
theorem previous_period_url_spec_witness :
    get_previous_period_url ⟨2026, 1, 15⟩
      = "https://ratings.fide.com/download/standard_dec25frl_xml.zip" := by
  have h := previous_period_url_spec 2026 1 15 (by decide) (by decide)
  exact h.trans (by decide)

end Sissa
